import Mathlib

/-!
Verification development for the tinyML accelerator toolchain.

Shallow embedding of the Python sources under src/compiler
(test_quant.py, helper_functions.py, assembler.py, disassembler.py,
compile.py, dram.py, golden_model.py) together with the architectural
constants of src/test/heavy_test_fpga/accelerator_config.py.

Machine integers are modelled as Nat/Int with explicit wrapping
(wrap32 / wrap64) exactly where numpy fixed-width arithmetic occurs;
Python floor division and floor shifts are Int ediv (the `/` of Int),
which rounds toward negative infinity for the positive divisors used
here, matching Python `//` and `>>`.
-/

namespace TinyML

/-! ### Architectural constants (src/test/heavy_test_fpga/accelerator_config.py) -/

def DATA_WIDTH : Nat := 8

def TILE_ELEMS : Nat := 8

def MEM_SIZE : Nat := 32768

def OUT_N : Nat := 10

def DRAM_ADDR_INPUTS : Nat := 192

def DRAM_ADDR_BIASES : Nat := 1216

def DRAM_ADDR_OUTPUTS : Nat := 2240

def DRAM_ADDR_WEIGHTS : Nat := 2368

/-! ### Quantizer (src/compiler/test_quant.py, helper_functions.py) -/

/-- np.clip(v, -128, 127): clamp an integer into the int8 range. -/
def clip8 (v : Int) : Int := max (-128) (min 127 v)

/-- Two's-complement wrap into the signed 64-bit range (numpy int64
arithmetic semantics). -/
def wrap64 (z : Int) : Int := (z + 2 ^ 63) % 2 ^ 64 - 2 ^ 63

/-- Two's-complement wrap into the signed 32-bit range (numpy int32
arithmetic semantics). -/
def wrap32 (z : Int) : Int := (z + 2 ^ 31) % 2 ^ 32 - 2 ^ 31

/-- Arithmetic right shift by n bits: floor division by 2 ^ n.  This is
the semantics of Python's and numpy's signed right shift: Int `/` here
is ediv, which agrees with floor division because the divisor is a
positive power of two. -/
def asr (z : Int) (n : Nat) : Int := z / 2 ^ n

/-- np.max(np.abs(v)) for an i32 accumulator vector (golden_model.py,
gemv). -/
def maxAbs (v : List Int) : Nat := v.foldl (fun m a => max m a.natAbs) 0

/-- Per-element step of test_quant.py's quantize_int32_to_int8_rtl_exact
for max_abs different from 0: max_val = (1 << (DATA_WIDTH - 1)) - 1;
divider = max_val << 24; reciprocal_scale = divider // max_abs (floor
division of nonnegative operands, hence Nat division); product =
int64(a) * reciprocal_scale (64-bit numpy multiply, hence wrap64);
rounded = (product + (1 << 23)) >> 24 (arithmetic shift); clip to
[-128, 127]. -/
def rtl_requant_elem (max_abs : Nat) (a : Int) : Int :=
  let max_val : Nat := (1 <<< (DATA_WIDTH - 1)) - 1
  let divider : Nat := max_val <<< 24
  let reciprocal_scale : Nat := divider / max_abs
  clip8 (asr (wrap64 (a * reciprocal_scale) + 2 ^ 23) 24)

/-- test_quant.py, quantize_int32_to_int8_rtl_exact (the bit-exact RTL
quantization used by golden_model.py's gemv).  The Python source also
takes a zero_point parameter which it never reads; it is omitted here.
If max_abs == 0 the result is all zeros, otherwise every element goes
through rtl_requant_elem (the source computes reciprocal_scale once
before the elementwise loop; it depends only on max_abs, so computing
it per element in rtl_requant_elem yields the same vector). -/
def quantize_int32_to_int8_rtl_exact (x_int32 : List Int) (max_abs : Nat) : List Int :=
  if max_abs = 0 then x_int32.map fun _ => 0
  else x_int32.map (rtl_requant_elem max_abs)

/-- Modelled from the spec: the requantization sequence exactly as
section 4.1 states it (steps 1-5), used as the specification side of
the refinement claim C1.  r = (127 * 2^24) div max_abs truncating
toward zero (the operands are nonnegative, so Nat division);
p = a * r as a mathematical integer (the spec asserts p fits in a
signed 64-bit integer, which holds for i32 inputs); q = (p + 2^23)
arithmetically shifted right by 24; clip q to [-128, 127]. -/
def requantize_spec (acc : List Int) (max_abs : Nat) : List Int :=
  if max_abs = 0 then acc.map fun _ => 0
  else
    let r : Nat := (127 * 2 ^ 24) / max_abs
    acc.map fun a => clip8 (asr (a * r + 2 ^ 23) 24)

theorem wrap64_eq_self {z : Int} (h1 : -(2 ^ 63) ≤ z) (h2 : z < 2 ^ 63) : wrap64 z = z := by
  unfold wrap64
  rw [Int.emod_eq_of_lt (by omega) (by omega)]
  omega

/-- C1: the code's requantization (quantize_int32_to_int8_rtl_exact)
computes exactly the sequence the spec describes: zeros when max_abs
is 0, otherwise r = (127 * 2^24) div max_abs, the 64-bit product
p = a * r (which never overflows for i32 inputs), q = (p + 2^23)
arithmetically shifted right by 24, clipped to [-128, 127]. -/
theorem quantize_rtl_exact_matches_spec (acc : List Int) (max_abs : Nat)
    (hrange : ∀ a ∈ acc, -(2 ^ 31) ≤ a ∧ a < 2 ^ 31)
    (_hmax : max_abs = maxAbs acc) :
    quantize_int32_to_int8_rtl_exact acc max_abs = requantize_spec acc max_abs := by
  unfold quantize_int32_to_int8_rtl_exact requantize_spec
  by_cases h0 : max_abs = 0
  · simp [h0]
  · simp only [h0, if_false]
    apply List.map_congr_left
    intro a ha
    obtain ⟨hlo, hhi⟩ := hrange a ha
    simp only [rtl_requant_elem]
    have hmaxval : ((1 <<< (DATA_WIDTH - 1)) - 1 : Nat) <<< 24 = 127 * 2 ^ 24 := by decide
    rw [hmaxval]
    have hr : ((127 * 2 ^ 24) / max_abs : Nat) ≤ 127 * 2 ^ 24 := Nat.div_le_self _ _
    have hrc : (((127 * 2 ^ 24) / max_abs : Nat) : Int) ≤ 127 * 2 ^ 24 := by
      exact_mod_cast hr
    have hrc0 : (0 : Int) ≤ (((127 * 2 ^ 24) / max_abs : Nat) : Int) := by positivity
    have hwrap : wrap64 (a * ((127 * 2 ^ 24) / max_abs : Nat)) =
        a * ((127 * 2 ^ 24) / max_abs : Nat) := by
      apply wrap64_eq_self
      · nlinarith
      · nlinarith
    rw [hwrap]

/-- Witness for C1 at a concrete input: the accumulator vector of the
spec's scenario B, with max_abs = 44. -/
theorem quantize_rtl_exact_matches_spec_witness :
    quantize_int32_to_int8_rtl_exact [11, 22, 33, 44] 44 = requantize_spec [11, 22, 33, 44] 44 :=
  quantize_rtl_exact_matches_spec [11, 22, 33, 44] 44 (by decide) (by decide)

theorem requant_boundary_core (m : Nat) (h0 : 0 < m) (hsmall : m ≤ 2 ^ 23) :
    rtl_requant_elem m (m : Int) = 127 ∧ rtl_requant_elem m (-(m : Int)) = -127 := by
  simp only [rtl_requant_elem]
  have hmaxval : ((1 <<< (DATA_WIDTH - 1)) - 1 : Nat) <<< 24 = 127 * 2 ^ 24 := by decide
  rw [hmaxval]
  obtain ⟨Pn, hPn⟩ : ∃ Pn, m * ((127 * 2 ^ 24) / m) = Pn := ⟨_, rfl⟩
  have hdm : Pn + 127 * 2 ^ 24 % m = 127 * 2 ^ 24 := by
    rw [← hPn]; exact Nat.div_add_mod _ _
  have hmod : 127 * 2 ^ 24 % m < m := Nat.mod_lt _ h0
  have hPle : Pn ≤ 127 * 2 ^ 24 := by omega
  have hPgt : 127 * 2 ^ 24 < Pn + m := by omega
  have hcast : (m : Int) * (((127 * 2 ^ 24) / m : Nat) : Int) = (Pn : Int) := by
    rw [← Nat.cast_mul, hPn]
  have hPleZ : (Pn : Int) ≤ 127 * 2 ^ 24 := by exact_mod_cast hPle
  have hPgtZ : (127 * 2 ^ 24 : Int) < (Pn : Int) + m := by exact_mod_cast hPgt
  have hmZ : (m : Int) ≤ 2 ^ 23 := by exact_mod_cast hsmall
  have hw1 : wrap64 ((Pn : Int)) = (Pn : Int) := wrap64_eq_self (by omega) (by omega)
  have hw2 : wrap64 (-(Pn : Int)) = -(Pn : Int) := wrap64_eq_self (by omega) (by omega)
  constructor
  · rw [hcast, hw1]
    unfold asr
    have hq : ((Pn : Int) + 2 ^ 23) / 2 ^ 24 = 127 := by omega
    rw [hq]; decide
  · rw [neg_mul, hcast, hw2]
    unfold asr
    have hq : (-(Pn : Int) + 2 ^ 23) / 2 ^ 24 = -127 := by omega
    rw [hq]; decide

/-- C6 counterexample: the vector [25165824] has max-abs 25165824, yet
the element equal to +max_abs requantizes to 126, not 127, because the
floor in the reciprocal scale loses more than half an output step once
max_abs exceeds 2^23. -/
theorem requant_boundary_counterexample :
    maxAbs [25165824] = 25165824 ∧
      quantize_int32_to_int8_rtl_exact [25165824] 25165824 = [126] := by decide

/-- C6 (amended): for any i32 vector whose max-abs equals m with
0 < m ≤ 2^23, requantization maps elements equal to +m to exactly 127
and elements equal to -m to exactly -127; for m > 2^23 this can fail
(see the counterexample). -/
theorem requant_boundary_amended (acc : List Int) (m i : Nat)
    (_hm : maxAbs acc = m) (h0 : 0 < m) (hsmall : m ≤ 2 ^ 23) :
    (acc[i]? = some (m : Int) →
      (quantize_int32_to_int8_rtl_exact acc m)[i]? = some 127) ∧
    (acc[i]? = some (-(m : Int)) →
      (quantize_int32_to_int8_rtl_exact acc m)[i]? = some (-127)) := by
  have hm0 : m ≠ 0 := by omega
  unfold quantize_int32_to_int8_rtl_exact
  simp only [hm0, if_false, List.getElem?_map]
  obtain ⟨hpos, hneg⟩ := requant_boundary_core m h0 hsmall
  constructor
  · intro h
    rw [h, Option.map, hpos]
  · intro h
    rw [h, Option.map, hneg]

/-- Witness for C6 (amended) at the concrete vector [44, -44] with
max-abs 44: index 0 maps to 127 and index 1 maps to -127. -/
theorem requant_boundary_amended_witness :
    (quantize_int32_to_int8_rtl_exact [44, -44] 44)[0]? = some 127 ∧
    (quantize_int32_to_int8_rtl_exact [44, -44] 44)[1]? = some (-127) :=
  ⟨(requant_boundary_amended [44, -44] 44 0 (by decide) (by decide) (by decide)).1 (by decide),
   (requant_boundary_amended [44, -44] 44 1 (by decide) (by decide) (by decide)).2 (by decide)⟩

/-! ### Float-to-int8 quantization (src/compiler/helper_functions.py) -/

/-- numpy's np.round rounds half to even (banker's rounding).  The
float32 tensor arithmetic of helper_functions.py is modelled on exact
rationals; at the rational inputs used in the theorems below the
floating-point computation is exact, so the model is faithful there. -/
def np_round (q : ℚ) : Int :=
  if q - Int.floor q < 1 / 2 then Int.floor q
  else if 1 / 2 < q - Int.floor q then Int.floor q + 1
  else if Int.floor q % 2 = 0 then Int.floor q else Int.floor q + 1

/-- helper_functions.py, quantize_tensor_f32_int8 with its default
zero_point 0: elementwise np.clip(np.round(x / scale + 0), -128, 127)
cast to int8. -/
def quantize_tensor_f32_int8 (tensor : List ℚ) (scale : ℚ) : List Int :=
  tensor.map fun x => clip8 (np_round (x / scale))

theorem np_round_half (k : Int) :
    np_round ((k : ℚ) + 1 / 2) = if k % 2 = 0 then k else k + 1 := by
  have hfl : Int.floor ((k : ℚ) + 1 / 2) = k := by
    rw [add_comm, Int.floor_add_int]
    norm_num
  unfold np_round
  rw [hfl]
  have hsub : ((k : ℚ) + 1 / 2) - ((k : Int) : ℚ) = 1 / 2 := by push_cast; ring
  rw [hsub]
  norm_num

/-- C7 counterexample: the quotient 5/2 = 2.5 is an exact half-integer
with k = 2 ≥ 0, yet the code returns clip(2) = 2 (nearest even), not
clip(k + 1) = 3 as the claim states. -/
theorem quantize_f32_half_away_counterexample :
    (5 : ℚ) / 2 = (2 : ℚ) + 1 / 2 ∧ quantize_tensor_f32_int8 [5] 2 = [2] := by
  constructor
  · norm_num
  · show [clip8 (np_round ((5 : ℚ) / 2))] = [2]
    rw [show (5 : ℚ) / 2 = ((2 : Int) : ℚ) + 1 / 2 by norm_num, np_round_half]
    decide

/-- C7 (amended): quantize_tensor_f32_int8 computes
clip(round(x / scale), -128, 127) where round is np.round's
half-to-even rounding, not half-away-from-zero: an element whose
quotient is an exact half-integer k + 0.5 with k ≥ 0 yields clip(k)
when k is even and clip(k + 1) when k is odd. -/
theorem quantize_f32_rounds_half_to_even (tensor : List ℚ) (scale x : ℚ) (i k : Nat)
    (hx : tensor[i]? = some x)
    (hhalf : x / scale = (k : ℚ) + 1 / 2) :
    (quantize_tensor_f32_int8 tensor scale)[i]? =
      some (clip8 (if k % 2 = 0 then (k : Int) else (k : Int) + 1)) := by
  unfold quantize_tensor_f32_int8
  rw [List.getElem?_map, hx, Option.map, hhalf]
  have hcast : ((k : Nat) : ℚ) = ((k : Int) : ℚ) := by norm_cast
  rw [hcast, np_round_half]
  congr 1
  by_cases hk : k % 2 = 0
  · have hkz : (k : Int) % 2 = 0 := by omega
    simp [hk, hkz]
  · have hkz : ¬(k : Int) % 2 = 0 := by omega
    simp [hk, hkz]

/-- Witness for C7 (amended) at tensor [5], scale 2: the quotient is
2.5, k = 2 is even, and the result is clip(2). -/
theorem quantize_f32_rounds_half_to_even_witness :
    (quantize_tensor_f32_int8 [5] 2)[0]? =
      some (clip8 (if 2 % 2 = 0 then ((2 : Nat) : Int) else ((2 : Nat) : Int) + 1)) :=
  quantize_f32_rounds_half_to_even [5] 2 5 0 2 rfl (by norm_num)

/-! ### Assembler and disassembler (src/compiler/assembler.py,
src/compiler/disassembler.py) -/

/-- Instructions as the assembler accepts them.  RELU carries the two
operands the assembler's RELU branch unpacks (dest, x); the
three-operand form the scheduler emits cannot be assembled, see
assemble_relu_args below. -/
inductive Instr where
  | nop : Instr
  | load_v (dest addr length : Nat) : Instr
  | load_m (dest addr rows cols : Nat) : Instr
  | buf_store (dest addr length : Nat) : Instr
  | gemv (dest w x b rows cols : Nat) : Instr
  | relu (dest x : Nat) : Instr
deriving DecidableEq

/-- assembler.py, assemble_line: the numeric value of the emitted
16-hex-digit word (the hex formatting is value-preserving; the NOP
branch emits extra zero hex digits, which do not change the value). -/
def assemble : Instr → Nat
  | .nop => 0x00
  | .load_v dest addr length => (addr <<< 40) ||| (length <<< 10) ||| (dest <<< 5) ||| 0x01
  | .load_m dest addr rows cols =>
      (addr <<< 40) ||| (rows <<< 20) ||| (cols <<< 10) ||| (dest <<< 5) ||| 0x02
  | .buf_store dest addr length => (addr <<< 40) ||| (length <<< 10) ||| (dest <<< 5) ||| 0x03
  | .gemv dest w x b rows cols =>
      (w <<< 40) ||| (x <<< 35) ||| (b <<< 30) ||| (rows <<< 20) ||| (cols <<< 10) |||
        (dest <<< 5) ||| 0x04
  | .relu dest x => (x <<< 10) ||| (dest <<< 5) ||| 0x05

/-- disassembler.py, decode_instruction: field extraction from the
64-bit word; an unknown opcode is reported, modelled as none. -/
def decode_instruction (instr : Nat) : Option Instr :=
  let opcode := instr &&& 0x1F
  if opcode = 0x00 then some .nop
  else if opcode = 0x01 ∨ opcode = 0x03 then
    let dest := (instr >>> 5) &&& 0x1F
    let length := (instr >>> 10) &&& 0x3FF
    let addr := (instr >>> 40) &&& 0xFFFFFF
    if opcode = 0x01 then some (.load_v dest addr length)
    else some (.buf_store dest addr length)
  else if opcode = 0x02 then
    let dest := (instr >>> 5) &&& 0x1F
    let cols := (instr >>> 10) &&& 0x3FF
    let rows := (instr >>> 20) &&& 0x3FF
    let addr := (instr >>> 40) &&& 0xFFFFFF
    some (.load_m dest addr rows cols)
  else if opcode = 0x04 then
    let dest := (instr >>> 5) &&& 0x1F
    let cols := (instr >>> 10) &&& 0x3FF
    let rows := (instr >>> 20) &&& 0x3FF
    let b := (instr >>> 30) &&& 0x1F
    let x := (instr >>> 35) &&& 0x1F
    let w := (instr >>> 40) &&& 0x1F
    some (.gemv dest w x b rows cols)
  else if opcode = 0x05 then
    let dest := (instr >>> 5) &&& 0x1F
    let x := (instr >>> 10) &&& 0x1F
    some (.relu dest x)
  else none

/-- Field ranges under which the assembled word is decoded back
losslessly: buffer ids are 5 bits, addresses 24 bits, rows/cols 10
bits, and LOAD_V/STORE lengths 10 bits (the disassembler extracts only
10 of the 18 length bits the assembler packs). -/
def operands_in_range : Instr → Bool
  | .nop => true
  | .load_v dest addr length =>
      decide (dest < 2 ^ 5) && decide (addr < 2 ^ 24) && decide (length < 2 ^ 10)
  | .load_m dest addr rows cols =>
      decide (dest < 2 ^ 5) && decide (addr < 2 ^ 24) && decide (rows < 2 ^ 10) &&
        decide (cols < 2 ^ 10)
  | .buf_store dest addr length =>
      decide (dest < 2 ^ 5) && decide (addr < 2 ^ 24) && decide (length < 2 ^ 10)
  | .gemv dest w x b rows cols =>
      decide (dest < 2 ^ 5) && decide (w < 2 ^ 5) && decide (x < 2 ^ 5) &&
        decide (b < 2 ^ 5) && decide (rows < 2 ^ 10) && decide (cols < 2 ^ 10)
  | .relu dest x => decide (dest < 2 ^ 5) && decide (x < 2 ^ 5)

theorem lor_eq_add_of_lt (k a b : Nat) (ha : 2 ^ k ∣ a) (hb : b < 2 ^ k) :
    a ||| b = a + b := by
  obtain ⟨c, rfl⟩ := ha
  exact (Nat.mul_add_lt_is_or hb c).symm

theorem and_mask5 (x : Nat) : x &&& 31 = x % 2 ^ 5 := by
  rw [show (31 : Nat) = 2 ^ 5 - 1 by norm_num]
  exact Nat.and_pow_two_sub_one_eq_mod x 5

theorem and_mask10 (x : Nat) : x &&& 1023 = x % 2 ^ 10 := by
  rw [show (1023 : Nat) = 2 ^ 10 - 1 by norm_num]
  exact Nat.and_pow_two_sub_one_eq_mod x 10

theorem and_mask18 (x : Nat) : x &&& 262143 = x % 2 ^ 18 := by
  rw [show (262143 : Nat) = 2 ^ 18 - 1 by norm_num]
  exact Nat.and_pow_two_sub_one_eq_mod x 18

theorem and_mask24 (x : Nat) : x &&& 16777215 = x % 2 ^ 24 := by
  rw [show (16777215 : Nat) = 2 ^ 24 - 1 by norm_num]
  exact Nat.and_pow_two_sub_one_eq_mod x 24

/-- C4 counterexample: the assembler packs the LOAD_V length into 18
bits but the disassembler reads back only 10, so LOAD_V 1, 0x0, 1024
does not round-trip (it decodes with length 0). -/
theorem decode_assemble_no_roundtrip_at_len_1024 :
    decode_instruction (assemble (.load_v 1 0 1024)) ≠ some (.load_v 1 0 1024) := by
  decide

set_option maxHeartbeats 1600000 in
/-- C4 (amended): disassemble(assemble(i)) = i holds for every
instruction the assembler emits whose operands fit the decoded fields:
5-bit buffer ids, 24-bit addresses, 10-bit rows/cols, and LOAD_V/STORE
lengths below 2^10 (not 2^18 as claimed: the disassembler extracts
only 10 of the 18 packed length bits), with RELU in the two-operand
form the assembler accepts. -/
theorem decode_assemble (i : Instr) (h : operands_in_range i = true) :
    decode_instruction (assemble i) = some i := by
  cases i with
  | nop => rfl
  | load_v dest addr length =>
    simp only [operands_in_range, Bool.and_eq_true, decide_eq_true_eq] at h
    obtain ⟨⟨hd, ha⟩, hl⟩ := h
    have s1 : (addr * 2 ^ 40) ||| (length * 2 ^ 10) = addr * 2 ^ 40 + length * 2 ^ 10 :=
      lor_eq_add_of_lt 28 _ _ ⟨addr * 2 ^ 12, by ring⟩ (by omega)
    have s2 : (addr * 2 ^ 40 + length * 2 ^ 10) ||| (dest * 2 ^ 5) =
        addr * 2 ^ 40 + length * 2 ^ 10 + dest * 2 ^ 5 :=
      lor_eq_add_of_lt 10 _ _ ⟨addr * 2 ^ 30 + length, by ring⟩ (by omega)
    have s3 : (addr * 2 ^ 40 + length * 2 ^ 10 + dest * 2 ^ 5) ||| 1 =
        addr * 2 ^ 40 + length * 2 ^ 10 + dest * 2 ^ 5 + 1 :=
      lor_eq_add_of_lt 5 _ _ ⟨addr * 2 ^ 35 + length * 2 ^ 5 + dest, by ring⟩ (by omega)
    have e : assemble (.load_v dest addr length) =
        addr * 2 ^ 40 + length * 2 ^ 10 + dest * 2 ^ 5 + 1 := by
      show (addr <<< 40 ||| length <<< 10 ||| dest <<< 5 ||| 1) = _
      rw [Nat.shiftLeft_eq, Nat.shiftLeft_eq, Nat.shiftLeft_eq, s1, s2, s3]
    rw [e]
    simp only [decode_instruction, Nat.shiftRight_eq_div_pow, and_mask5, and_mask10, and_mask24]
    have hop : (addr * 2 ^ 40 + length * 2 ^ 10 + dest * 2 ^ 5 + 1) % 2 ^ 5 = 1 := by omega
    rw [hop]
    have h5 : (addr * 2 ^ 40 + length * 2 ^ 10 + dest * 2 ^ 5 + 1) / 2 ^ 5 % 2 ^ 5 = dest := by
      omega
    have h10 : (addr * 2 ^ 40 + length * 2 ^ 10 + dest * 2 ^ 5 + 1) / 2 ^ 10 % 2 ^ 10 =
        length := by omega
    have h40 : (addr * 2 ^ 40 + length * 2 ^ 10 + dest * 2 ^ 5 + 1) / 2 ^ 40 % 2 ^ 24 =
        addr := by omega
    rw [h5, h10, h40]
    norm_num
  | buf_store dest addr length =>
    simp only [operands_in_range, Bool.and_eq_true, decide_eq_true_eq] at h
    obtain ⟨⟨hd, ha⟩, hl⟩ := h
    have s1 : (addr * 2 ^ 40) ||| (length * 2 ^ 10) = addr * 2 ^ 40 + length * 2 ^ 10 :=
      lor_eq_add_of_lt 28 _ _ ⟨addr * 2 ^ 12, by ring⟩ (by omega)
    have s2 : (addr * 2 ^ 40 + length * 2 ^ 10) ||| (dest * 2 ^ 5) =
        addr * 2 ^ 40 + length * 2 ^ 10 + dest * 2 ^ 5 :=
      lor_eq_add_of_lt 10 _ _ ⟨addr * 2 ^ 30 + length, by ring⟩ (by omega)
    have s3 : (addr * 2 ^ 40 + length * 2 ^ 10 + dest * 2 ^ 5) ||| 3 =
        addr * 2 ^ 40 + length * 2 ^ 10 + dest * 2 ^ 5 + 3 :=
      lor_eq_add_of_lt 5 _ _ ⟨addr * 2 ^ 35 + length * 2 ^ 5 + dest, by ring⟩ (by omega)
    have e : assemble (.buf_store dest addr length) =
        addr * 2 ^ 40 + length * 2 ^ 10 + dest * 2 ^ 5 + 3 := by
      show (addr <<< 40 ||| length <<< 10 ||| dest <<< 5 ||| 3) = _
      rw [Nat.shiftLeft_eq, Nat.shiftLeft_eq, Nat.shiftLeft_eq, s1, s2, s3]
    rw [e]
    simp only [decode_instruction, Nat.shiftRight_eq_div_pow, and_mask5, and_mask10, and_mask24]
    have hop : (addr * 2 ^ 40 + length * 2 ^ 10 + dest * 2 ^ 5 + 3) % 2 ^ 5 = 3 := by omega
    rw [hop]
    have h5 : (addr * 2 ^ 40 + length * 2 ^ 10 + dest * 2 ^ 5 + 3) / 2 ^ 5 % 2 ^ 5 = dest := by
      omega
    have h10 : (addr * 2 ^ 40 + length * 2 ^ 10 + dest * 2 ^ 5 + 3) / 2 ^ 10 % 2 ^ 10 =
        length := by omega
    have h40 : (addr * 2 ^ 40 + length * 2 ^ 10 + dest * 2 ^ 5 + 3) / 2 ^ 40 % 2 ^ 24 =
        addr := by omega
    rw [h5, h10, h40]
    norm_num
  | load_m dest addr rows cols =>
    simp only [operands_in_range, Bool.and_eq_true, decide_eq_true_eq] at h
    obtain ⟨⟨⟨hd, ha⟩, hr⟩, hc⟩ := h
    have s1 : (addr * 2 ^ 40) ||| (rows * 2 ^ 20) = addr * 2 ^ 40 + rows * 2 ^ 20 :=
      lor_eq_add_of_lt 30 _ _ ⟨addr * 2 ^ 10, by ring⟩ (by omega)
    have s2 : (addr * 2 ^ 40 + rows * 2 ^ 20) ||| (cols * 2 ^ 10) =
        addr * 2 ^ 40 + rows * 2 ^ 20 + cols * 2 ^ 10 :=
      lor_eq_add_of_lt 20 _ _ ⟨addr * 2 ^ 20 + rows, by ring⟩ (by omega)
    have s3 : (addr * 2 ^ 40 + rows * 2 ^ 20 + cols * 2 ^ 10) ||| (dest * 2 ^ 5) =
        addr * 2 ^ 40 + rows * 2 ^ 20 + cols * 2 ^ 10 + dest * 2 ^ 5 :=
      lor_eq_add_of_lt 10 _ _ ⟨addr * 2 ^ 30 + rows * 2 ^ 10 + cols, by ring⟩ (by omega)
    have s4 : (addr * 2 ^ 40 + rows * 2 ^ 20 + cols * 2 ^ 10 + dest * 2 ^ 5) ||| 2 =
        addr * 2 ^ 40 + rows * 2 ^ 20 + cols * 2 ^ 10 + dest * 2 ^ 5 + 2 :=
      lor_eq_add_of_lt 5 _ _
        ⟨addr * 2 ^ 35 + rows * 2 ^ 15 + cols * 2 ^ 5 + dest, by ring⟩ (by omega)
    have e : assemble (.load_m dest addr rows cols) =
        addr * 2 ^ 40 + rows * 2 ^ 20 + cols * 2 ^ 10 + dest * 2 ^ 5 + 2 := by
      show (addr <<< 40 ||| rows <<< 20 ||| cols <<< 10 ||| dest <<< 5 ||| 2) = _
      rw [Nat.shiftLeft_eq, Nat.shiftLeft_eq, Nat.shiftLeft_eq, Nat.shiftLeft_eq,
        s1, s2, s3, s4]
    rw [e]
    simp only [decode_instruction, Nat.shiftRight_eq_div_pow, and_mask5, and_mask10, and_mask24]
    have hop : (addr * 2 ^ 40 + rows * 2 ^ 20 + cols * 2 ^ 10 + dest * 2 ^ 5 + 2) % 2 ^ 5 =
        2 := by omega
    rw [hop]
    have h5 : (addr * 2 ^ 40 + rows * 2 ^ 20 + cols * 2 ^ 10 + dest * 2 ^ 5 + 2) / 2 ^ 5 %
        2 ^ 5 = dest := by omega
    have h10 : (addr * 2 ^ 40 + rows * 2 ^ 20 + cols * 2 ^ 10 + dest * 2 ^ 5 + 2) / 2 ^ 10 %
        2 ^ 10 = cols := by omega
    have h20 : (addr * 2 ^ 40 + rows * 2 ^ 20 + cols * 2 ^ 10 + dest * 2 ^ 5 + 2) / 2 ^ 20 %
        2 ^ 10 = rows := by omega
    have h40 : (addr * 2 ^ 40 + rows * 2 ^ 20 + cols * 2 ^ 10 + dest * 2 ^ 5 + 2) / 2 ^ 40 %
        2 ^ 24 = addr := by omega
    rw [h5, h10, h20, h40]
    norm_num
  | gemv dest w x b rows cols =>
    simp only [operands_in_range, Bool.and_eq_true, decide_eq_true_eq] at h
    obtain ⟨⟨⟨⟨⟨hd, hw⟩, hx⟩, hb⟩, hr⟩, hc⟩ := h
    have s1 : (w * 2 ^ 40) ||| (x * 2 ^ 35) = w * 2 ^ 40 + x * 2 ^ 35 :=
      lor_eq_add_of_lt 40 _ _ ⟨w, by ring⟩ (by omega)
    have s2 : (w * 2 ^ 40 + x * 2 ^ 35) ||| (b * 2 ^ 30) =
        w * 2 ^ 40 + x * 2 ^ 35 + b * 2 ^ 30 :=
      lor_eq_add_of_lt 35 _ _ ⟨w * 2 ^ 5 + x, by ring⟩ (by omega)
    have s3 : (w * 2 ^ 40 + x * 2 ^ 35 + b * 2 ^ 30) ||| (rows * 2 ^ 20) =
        w * 2 ^ 40 + x * 2 ^ 35 + b * 2 ^ 30 + rows * 2 ^ 20 :=
      lor_eq_add_of_lt 30 _ _ ⟨w * 2 ^ 10 + x * 2 ^ 5 + b, by ring⟩ (by omega)
    have s4 : (w * 2 ^ 40 + x * 2 ^ 35 + b * 2 ^ 30 + rows * 2 ^ 20) ||| (cols * 2 ^ 10) =
        w * 2 ^ 40 + x * 2 ^ 35 + b * 2 ^ 30 + rows * 2 ^ 20 + cols * 2 ^ 10 :=
      lor_eq_add_of_lt 20 _ _
        ⟨w * 2 ^ 20 + x * 2 ^ 15 + b * 2 ^ 10 + rows, by ring⟩ (by omega)
    have s5 : (w * 2 ^ 40 + x * 2 ^ 35 + b * 2 ^ 30 + rows * 2 ^ 20 + cols * 2 ^ 10) |||
        (dest * 2 ^ 5) =
        w * 2 ^ 40 + x * 2 ^ 35 + b * 2 ^ 30 + rows * 2 ^ 20 + cols * 2 ^ 10 +
          dest * 2 ^ 5 :=
      lor_eq_add_of_lt 10 _ _
        ⟨w * 2 ^ 30 + x * 2 ^ 25 + b * 2 ^ 20 + rows * 2 ^ 10 + cols, by ring⟩ (by omega)
    have s6 : (w * 2 ^ 40 + x * 2 ^ 35 + b * 2 ^ 30 + rows * 2 ^ 20 + cols * 2 ^ 10 +
        dest * 2 ^ 5) ||| 4 =
        w * 2 ^ 40 + x * 2 ^ 35 + b * 2 ^ 30 + rows * 2 ^ 20 + cols * 2 ^ 10 +
          dest * 2 ^ 5 + 4 :=
      lor_eq_add_of_lt 5 _ _
        ⟨w * 2 ^ 35 + x * 2 ^ 30 + b * 2 ^ 25 + rows * 2 ^ 15 + cols * 2 ^ 5 + dest,
          by ring⟩ (by omega)
    have e : assemble (.gemv dest w x b rows cols) =
        w * 2 ^ 40 + x * 2 ^ 35 + b * 2 ^ 30 + rows * 2 ^ 20 + cols * 2 ^ 10 +
          dest * 2 ^ 5 + 4 := by
      show (w <<< 40 ||| x <<< 35 ||| b <<< 30 ||| rows <<< 20 ||| cols <<< 10 |||
        dest <<< 5 ||| 4) = _
      rw [Nat.shiftLeft_eq, Nat.shiftLeft_eq, Nat.shiftLeft_eq, Nat.shiftLeft_eq,
        Nat.shiftLeft_eq, Nat.shiftLeft_eq, s1, s2, s3, s4, s5, s6]
    rw [e]
    simp only [decode_instruction, Nat.shiftRight_eq_div_pow, and_mask5, and_mask10, and_mask24]
    have hop : (w * 2 ^ 40 + x * 2 ^ 35 + b * 2 ^ 30 + rows * 2 ^ 20 + cols * 2 ^ 10 +
        dest * 2 ^ 5 + 4) % 2 ^ 5 = 4 := by omega
    rw [hop]
    have h5 : (w * 2 ^ 40 + x * 2 ^ 35 + b * 2 ^ 30 + rows * 2 ^ 20 + cols * 2 ^ 10 +
        dest * 2 ^ 5 + 4) / 2 ^ 5 % 2 ^ 5 = dest := by omega
    have h10 : (w * 2 ^ 40 + x * 2 ^ 35 + b * 2 ^ 30 + rows * 2 ^ 20 + cols * 2 ^ 10 +
        dest * 2 ^ 5 + 4) / 2 ^ 10 % 2 ^ 10 = cols := by omega
    have h20 : (w * 2 ^ 40 + x * 2 ^ 35 + b * 2 ^ 30 + rows * 2 ^ 20 + cols * 2 ^ 10 +
        dest * 2 ^ 5 + 4) / 2 ^ 20 % 2 ^ 10 = rows := by omega
    have h30 : (w * 2 ^ 40 + x * 2 ^ 35 + b * 2 ^ 30 + rows * 2 ^ 20 + cols * 2 ^ 10 +
        dest * 2 ^ 5 + 4) / 2 ^ 30 % 2 ^ 5 = b := by omega
    have h35 : (w * 2 ^ 40 + x * 2 ^ 35 + b * 2 ^ 30 + rows * 2 ^ 20 + cols * 2 ^ 10 +
        dest * 2 ^ 5 + 4) / 2 ^ 35 % 2 ^ 5 = x := by omega
    have h40 : (w * 2 ^ 40 + x * 2 ^ 35 + b * 2 ^ 30 + rows * 2 ^ 20 + cols * 2 ^ 10 +
        dest * 2 ^ 5 + 4) / 2 ^ 40 % 2 ^ 5 = w := by omega
    rw [h5, h10, h20, h30, h35, h40]
    norm_num
  | relu dest x =>
    simp only [operands_in_range, Bool.and_eq_true, decide_eq_true_eq] at h
    obtain ⟨hd, hx⟩ := h
    have s1 : (x * 2 ^ 10) ||| (dest * 2 ^ 5) = x * 2 ^ 10 + dest * 2 ^ 5 :=
      lor_eq_add_of_lt 10 _ _ ⟨x, by ring⟩ (by omega)
    have s2 : (x * 2 ^ 10 + dest * 2 ^ 5) ||| 5 = x * 2 ^ 10 + dest * 2 ^ 5 + 5 :=
      lor_eq_add_of_lt 5 _ _ ⟨x * 2 ^ 5 + dest, by ring⟩ (by omega)
    have e : assemble (.relu dest x) = x * 2 ^ 10 + dest * 2 ^ 5 + 5 := by
      show (x <<< 10 ||| dest <<< 5 ||| 5) = _
      rw [Nat.shiftLeft_eq, Nat.shiftLeft_eq, s1, s2]
    rw [e]
    simp only [decode_instruction, Nat.shiftRight_eq_div_pow, and_mask5, and_mask10, and_mask24]
    have hop : (x * 2 ^ 10 + dest * 2 ^ 5 + 5) % 2 ^ 5 = 5 := by omega
    rw [hop]
    have h5 : (x * 2 ^ 10 + dest * 2 ^ 5 + 5) / 2 ^ 5 % 2 ^ 5 = dest := by omega
    have h10 : (x * 2 ^ 10 + dest * 2 ^ 5 + 5) / 2 ^ 10 % 2 ^ 5 = x := by omega
    rw [h5, h10]
    norm_num

/-- Witness for C4 (amended) at the spec's scenario E encoding vector:
LOAD_V dest 9, addr 0x700, length 784 round-trips. -/
theorem decode_assemble_witness :
    decode_instruction (assemble (.load_v 9 0x700 784)) = some (.load_v 9 0x700 784) :=
  decode_assemble (.load_v 9 0x700 784) (by decide)

/-! ### Scheduler RELU emission vs the assembler (src/compiler/compile.py,
src/compiler/assembler.py, src/compiler/golden_model.py) -/

/-- assembler.py, RELU branch: the branch unpacks exactly two operand
values (dest, x = args); any other operand count makes the Python
unpacking raise ValueError, so the line cannot be assembled. -/
def assemble_relu_args (args : List Nat) : Except String Nat :=
  match args with
  | [dest, x] => .ok ((x <<< 10) ||| (dest <<< 5) ||| 0x05)
  | _ => .error "ValueError"

/-- compile.py, Relu lowering: the emitted operand list
RELU relu_buf, input_buf, relu_length has three operands. -/
def sched_relu_args (relu_buf input_buf relu_length : Nat) : List Nat :=
  [relu_buf, input_buf, relu_length]

/-- golden_model.py, i_decoder RELU case: the length operand is decoded
from bits 29:20 of the instruction word. -/
def relu_length_field (instruction : Nat) : Nat := (instruction >>> 20) &&& 0x3FF

/-- C5: the three-operand RELU the scheduler emits cannot be encoded by
the assembler: its RELU branch unpacks exactly two operands, so
assembling RELU 7, 5, 12 raises ValueError instead of producing a
64-bit word with the length 12 in bits 29:20; the two-operand word the
assembler can produce always carries 0 in the bits 29:20 that the
golden model decodes as the RELU length. -/
theorem assemble_scheduler_relu_fails :
    assemble_relu_args (sched_relu_args 7 5 12) = .error "ValueError" ∧
      relu_length_field (assemble (.relu 7 5)) = 0 := ⟨rfl, by decide⟩

/-! ### Golden model (src/compiler/golden_model.py) -/

/-- Signed int8 view of a stored memory byte: the DRAM image is kept
here as unsigned bytes 0..255 and viewed signed on read, matching the
np.int8 memory array loaded from the unsigned hex file. -/
def sbyte (b : Nat) : Int := if b < 128 then (b : Int) else (b : Int) - 256

/-- The golden model's scratchpad: the Python dict from buffer id to
vector.  Insertion shadows; lookup takes the most recent binding. -/
abbrev Buffers := List (Nat × List Int)

def bufGet (bs : Buffers) (k : Nat) : Option (List Int) :=
  (bs.find? fun p => p.1 == k).map Prod.snd

def bufSet (bs : Buffers) (k : Nat) (v : List Int) : Buffers := (k, v) :: bs

/-- Golden-model machine state: the module globals buffers, memory and
output_buffer of golden_model.py. -/
structure SimState where
  buffers : Buffers
  memory : List Nat
  output_buffer : Nat
deriving DecidableEq

/-- golden_model.py load_v: buffers[dest] = memory[addr:addr+length].
A Python slice clamps at the end of memory, so no error is raised. -/
def load_v (st : SimState) (dest addr length : Nat) : SimState :=
  { st with buffers :=
      bufSet st.buffers dest (((st.memory.drop addr).take length).map sbyte) }

/-- golden_model.py load_m: buffers[dest] = memory[addr:addr+rows*cols]
(rows * cols bytes, with no tile padding of cols). -/
def load_m (st : SimState) (dest addr rows cols : Nat) : SimState :=
  { st with buffers :=
      bufSet st.buffers dest (((st.memory.drop addr).take (rows * cols)).map sbyte) }

/-- golden_model.py store loop: for i in range(length):
memory[addr + i] = buffers[buf_id][i], iterated here on the remaining
trip count (third argument) so the recursion is structural.  A missing
buffer is a KeyError, an index past the buffer's or memory's end an
IndexError; the writes made before a failing index stay in memory,
mirroring the mutated module global. -/
def store_loop (bs : Buffers) (buf_id addr : Nat) :
    List Nat → Nat → Nat → List Nat × Option String
  | mem, _, 0 => (mem, none)
  | mem, i, fuel + 1 =>
    match bufGet bs buf_id with
    | none => (mem, some "KeyError")
    | some buf =>
      match buf[i]? with
      | none => (mem, some "IndexError")
      | some v =>
        if addr + i < mem.length then
          store_loop bs buf_id addr (mem.set (addr + i) (v % 256).toNat) (i + 1) fuel
        else (mem, some "IndexError")

/-- golden_model.py store: run the write loop; only when it completes
does the module-global output_buffer update to buf_id. -/
def store (st : SimState) (buf_id addr length : Nat) : SimState × Option String :=
  let r := store_loop st.buffers buf_id addr st.memory 0 length
  match r.2 with
  | none => ({ st with memory := r.1, output_buffer := buf_id }, none)
  | some e => ({ st with memory := r.1 }, some e)

/-- padded column stride shared by dram.py and golden_model.py's gemv:
((cols + TILE_WIDTH - 1) // TILE_WIDTH) * TILE_WIDTH. -/
def padded_cols (tile cols : Nat) : Nat := ((cols + tile - 1) / tile) * tile

/-- golden_model.py gemv inner loop over j (iterated on the remaining
trip count): sum += np.int32(buffers[w][i*stride+j]) *
np.int32(buffers[x][j]) with int32 wrapping at each step. -/
def gemv_dot (bs : Buffers) (w x stride i : Nat) : Nat → Nat → Int → Except String Int
  | _, 0, sum => .ok sum
  | j, fuel + 1, sum =>
    match bufGet bs w with
    | none => .error "KeyError"
    | some wbuf =>
      match wbuf[i * stride + j]? with
      | none => .error "IndexError"
      | some wv =>
        match bufGet bs x with
        | none => .error "KeyError"
        | some xbuf =>
          match xbuf[j]? with
          | none => .error "IndexError"
          | some xv =>
            gemv_dot bs w x stride i (j + 1) fuel (wrap32 (sum + wrap32 (wv * xv)))

/-- golden_model.py gemv outer loop over i (iterated on the remaining
trip count): after the dot product, sum += buffers[b][i] and
buffers[dest][i] = np.int32(sum); on an exception the partially filled
destination vector is carried in the error value. -/
def gemv_rows (bs : Buffers) (w x b stride cols : Nat) :
    Nat → Nat → List Int → Except (String × List Int) (List Int)
  | _, 0, out => .ok out
  | i, fuel + 1, out =>
    match gemv_dot bs w x stride i 0 cols 0 with
    | .error e => .error (e, out)
    | .ok s =>
      match bufGet bs b with
      | none => .error ("KeyError", out)
      | some bbuf =>
        match bbuf[i]? with
        | none => .error ("IndexError", out)
        | some bv =>
          gemv_rows bs w x b stride cols (i + 1) fuel (out.set i (wrap32 (s + bv)))

/-- golden_model.py gemv: buffers[dest] = [0] * rows, run the loops
with stride = padded_cols, then requantize the accumulator with its
max-abs via the bit-exact RTL path.  np.max over an empty accumulator
(rows = 0) raises ValueError. -/
def gemv (st : SimState) (dest w x b rows cols : Nat) :
    Except (String × SimState) SimState :=
  let stride := padded_cols TILE_ELEMS cols
  let bs1 := bufSet st.buffers dest (List.replicate rows 0)
  match gemv_rows bs1 w x b stride cols 0 rows (List.replicate rows 0) with
  | .error e => .error (e.1, { st with buffers := bufSet bs1 dest e.2 })
  | .ok acc =>
    if rows = 0 then .error ("ValueError", { st with buffers := bs1 })
    else
      .ok { st with
        buffers := bufSet bs1 dest (quantize_int32_to_int8_rtl_exact acc (maxAbs acc)) }

/-- golden_model.py relu: buffers[dest] = [max(0, val) for val in
buffers[x][:length]]; a missing buffers[x] is a KeyError. -/
def relu (st : SimState) (dest x length : Nat) : Except (String × SimState) SimState :=
  match bufGet st.buffers x with
  | none => .error ("KeyError", st)
  | some xs =>
    .ok { st with buffers := bufSet st.buffers dest ((xs.take length).map fun v => max 0 v) }

/-- golden_model.py i_decoder: decode the word's fields and dispatch.
An unrecognized opcode only produces a string the caller ignores, so
execution continues with the state unchanged. -/
def i_decoder (st : SimState) (instruction : Nat) : Except (String × SimState) SimState :=
  let opcode := instruction &&& 0x1F
  if opcode = 1 then
    let dest := (instruction >>> 5) &&& 0x1F
    let len := (instruction >>> 10) &&& 0x3FFFF
    let addr := (instruction >>> 40) &&& 0xFFFFFF
    .ok (load_v st dest addr len)
  else if opcode = 2 then
    let dest := (instruction >>> 5) &&& 0x1F
    let cols := (instruction >>> 10) &&& 0x3FF
    let rows := (instruction >>> 20) &&& 0x3FF
    let addr := (instruction >>> 40) &&& 0xFFFFFF
    .ok (load_m st dest addr rows cols)
  else if opcode = 3 then
    let buf_id := (instruction >>> 5) &&& 0x1F
    let len := (instruction >>> 10) &&& 0x3FFFF
    let addr := (instruction >>> 40) &&& 0xFFFFFF
    let r := store st buf_id addr len
    match r.2 with
    | none => .ok r.1
    | some e => .error (e, r.1)
  else if opcode = 4 then
    let dest := (instruction >>> 5) &&& 0x1F
    let cols := (instruction >>> 10) &&& 0x3FF
    let rows := (instruction >>> 20) &&& 0x3FF
    let b := (instruction >>> 30) &&& 0x1F
    let x := (instruction >>> 35) &&& 0x1F
    let w := (instruction >>> 40) &&& 0x1F
    gemv st dest w x b rows cols
  else if opcode = 5 then
    let dest := (instruction >>> 5) &&& 0x1F
    let x := (instruction >>> 10) &&& 0x1F
    let length := (instruction >>> 20) &&& 0x3FF
    relu st dest x length
  else .ok st

/-- Big-endian numeric value of a chunk of memory bytes:
execute_program joins 8 two-hex-digit lines, most significant first. -/
def bytes_to_word (bytes : List Nat) : Nat := bytes.foldl (fun acc b => acc * 256 + b) 0

/-- golden_model.py execute_program's instruction fetch: the first
DRAM_ADDR_INPUTS lines (bytes) of the image, 8 bytes per word; a
trailing partial chunk still parses as a shorter hex string, an empty
chunk is filtered out. -/
def program_words (memory : List Nat) : List Nat :=
  (List.range (DRAM_ADDR_INPUTS / 8)).filterMap fun k =>
    let chunk := ((memory.take DRAM_ADDR_INPUTS).drop (8 * k)).take 8
    if chunk.isEmpty then none else some (bytes_to_word chunk)

/-- The instruction loop of execute_program: a Python exception aborts
the run, carrying the mutated state. -/
def run_instrs (st : SimState) : List Nat → Except (String × SimState) SimState
  | [] => .ok st
  | wd :: ws =>
    match i_decoder st wd with
    | .error e => .error e
    | .ok st1 => run_instrs st1 ws

/-- golden_model.py execute_program on a memory image: reset the
globals, decode and run every fetched word, then return
buffers[output_buffer][0:output_length].  The error value names the
Python exception; looking up a buffer that was never written is a
KeyError. -/
def execute_program (memory : List Nat) : Except String (List Int) :=
  match run_instrs ⟨[], memory, 0⟩ (program_words memory) with
  | .error e => .error e.1
  | .ok st =>
    match bufGet st.buffers st.output_buffer with
    | none => .error "KeyError"
    | some buf => .ok (buf.take OUT_N)

/-- The exception name of a failed instruction run, if any. -/
def run_error_msg (r : Except (String × SimState) SimState) : Option String :=
  match r with
  | .error e => some e.1
  | .ok _ => none

theorem run_instrs_zeros (n : Nat) : ∀ st : SimState,
    run_instrs st (List.replicate n 0) = .ok st := by
  induction n with
  | zero => intro st; rfl
  | succ n ih =>
    intro st
    rw [List.replicate_succ]
    show run_instrs st (0 :: List.replicate n 0) = .ok st
    have h0 : i_decoder st 0 = .ok st := rfl
    simp only [run_instrs, h0]
    exact ih st

theorem zero_image_result :
    execute_program (List.replicate MEM_SIZE 0) = .error "KeyError" := by
  unfold execute_program
  rw [show program_words (List.replicate MEM_SIZE 0) = List.replicate 24 0 by decide,
    run_instrs_zeros]
  rfl

/-- C8 counterexample: on the all-zero image of MEM_SIZE bytes the
golden model does not return OUT_N zeros — the output buffer was never
written, so the final buffers[output_buffer] lookup fails. -/
theorem zero_image_no_zero_vector :
    execute_program (List.replicate MEM_SIZE 0) ≠ .ok (List.replicate OUT_N 0) := by
  rw [zero_image_result]
  intro h
  cases h

/-- C8 (amended): on the all-zero image every fetched word decodes as
an unknown opcode and is skipped, but execute_program then raises
KeyError reading buffers[0]: the uninitialized output buffer is not
defined to read as zeros. -/
theorem zero_image_raises_key_error :
    execute_program (List.replicate MEM_SIZE 0) = .error "KeyError" :=
  zero_image_result

/-- C9: a LOAD_V whose addr + length runs past the end of the memory
snapshot raises no error: the destination buffer receives exactly the
bytes from addr to the end of memory — possibly fewer than length, or
none — and execution goes on with that shorter vector. -/
theorem load_v_truncates_silently (st : SimState) (dest addr length : Nat)
    (hover : st.memory.length < addr + length) :
    bufGet (load_v st dest addr length).buffers dest
        = some ((st.memory.drop addr).map sbyte) ∧
      ((st.memory.drop addr).map sbyte).length = st.memory.length - addr ∧
      st.memory.length - addr ≤ length := by
  refine ⟨?_, ?_, by omega⟩
  · unfold load_v bufSet bufGet
    have htake : (st.memory.drop addr).take length = st.memory.drop addr :=
      List.take_of_length_le (by rw [List.length_drop]; omega)
    simp [htake]
  · rw [List.length_map, List.length_drop]

/-- Witness for C9: memory [7, 250] with LOAD_V dest 3, addr 1,
length 5: the buffer silently receives the single trailing byte. -/
theorem load_v_truncates_silently_witness :
    bufGet (load_v ⟨[], [7, 250], 0⟩ 3 1 5).buffers 3
        = some ((([7, 250] : List Nat).drop 1).map sbyte) ∧
      ((([7, 250] : List Nat).drop 1).map sbyte).length = 2 - 1 ∧ 2 - 1 ≤ 5 :=
  load_v_truncates_silently ⟨[], [7, 250], 0⟩ 3 1 5 (by decide)

/-- The effect of the store loop once it runs off the end of the
source buffer: every buffer element has been written, in order,
starting at addr. -/
def write_bytes (mem : List Nat) (addr : Nat) : List Int → List Nat
  | [] => mem
  | v :: vs => write_bytes (mem.set addr (v % 256).toNat) (addr + 1) vs

theorem store_loop_overrun (bs : Buffers) (buf_id : Nat) (buf : List Int)
    (hb : bufGet bs buf_id = some buf) (addr : Nat) :
    ∀ (fuel i : Nat) (mem : List Nat), buf.length - i < fuel → i ≤ buf.length →
      addr + buf.length ≤ mem.length →
      store_loop bs buf_id addr mem i fuel =
        (write_bytes mem (addr + i) (buf.drop i), some "IndexError") := by
  intro fuel
  induction fuel with
  | zero => intro i mem h1 _ _; omega
  | succ fuel ih =>
    intro i mem h1 h2 h3
    by_cases hi : i < buf.length
    · have hget : buf[i]? = some buf[i] := List.getElem?_eq_getElem hi
      have hmemlt : addr + i < mem.length := by omega
      have hdrop : buf.drop i = buf[i] :: buf.drop (i + 1) :=
        List.drop_eq_getElem_cons hi
      show store_loop bs buf_id addr mem i (fuel + 1) = _
      rw [store_loop, hb]
      dsimp only
      rw [hget]
      dsimp only
      simp only [hmemlt, if_true]
      rw [ih (i + 1) (mem.set (addr + i) (buf[i] % 256).toNat) (by omega) (by omega)
        (by rw [List.length_set]; omega)]
      rw [hdrop]
      show _ = (write_bytes (mem.set (addr + i) (buf[i] % 256).toNat) (addr + i + 1)
        (buf.drop (i + 1)), some "IndexError")
      rw [show addr + (i + 1) = addr + i + 1 by omega]
    · have hieq : i = buf.length := by omega
      have hget : buf[i]? = none := by
        rw [List.getElem?_eq_none]
        omega
      show store_loop bs buf_id addr mem i (fuel + 1) = _
      rw [store_loop, hb]
      dsimp only
      rw [hget]
      rw [hieq, List.drop_length]
      rfl

/-- C10: a STORE whose length exceeds its source buffer fails with an
IndexError only after every existing buffer element has been copied
into memory: memory is left partially modified on error (STORE is not
atomic), and output_buffer keeps its old value on that failing STORE. -/
theorem store_partial_write_on_overrun (st : SimState) (buf_id addr length : Nat)
    (buf : List Int) (hb : bufGet st.buffers buf_id = some buf)
    (hlen : buf.length < length) (hmem : addr + buf.length ≤ st.memory.length) :
    store st buf_id addr length =
      ({ st with memory := write_bytes st.memory addr buf }, some "IndexError") := by
  unfold store
  rw [show (0 : Nat) = 0 by rfl]
  rw [store_loop_overrun st.buffers buf_id buf hb addr length 0 st.memory
    (by omega) (by omega) (by omega)]
  simp

/-- Witness for C10: buffer 2 holds [5, 6], memory has four bytes, and
STORE 2, addr 1, length 3 copies the two bytes then fails, leaving
memory partially modified and output_buffer untouched. -/
theorem store_partial_write_on_overrun_witness :
    store ⟨[(2, [5, 6])], [0, 0, 0, 0], 9⟩ 2 1 3 =
      ({ buffers := [(2, [5, 6])], memory := write_bytes [0, 0, 0, 0] 1 [5, 6],
         output_buffer := 9 }, some "IndexError") :=
  store_partial_write_on_overrun ⟨[(2, [5, 6])], [0, 0, 0, 0], 9⟩ 2 1 3 [5, 6]
    rfl (by decide) (by decide)

/-- C2: LOAD_M loads rows * cols bytes, not rows * padded_cols as the
claim states; with rows = 2, cols = 1 and tile_elems = 8 the loaded
buffer holds 2 bytes while the following GEMV reads the stride-based
index 1 * padded_cols + 0 = 8, so the golden model aborts with an
IndexError instead of staying inside the loaded buffer. -/
theorem load_m_unpadded_gemv_out_of_range :
    (bufGet (load_m ⟨[], List.replicate 16 1, 0⟩ 1 0 2 1).buffers 1).map List.length
        = some (2 * 1) ∧
      2 * 1 < 2 * padded_cols TILE_ELEMS 1 ∧
      run_error_msg (run_instrs ⟨[], List.replicate 16 1, 0⟩
        [assemble (.load_v 9 0 1), assemble (.load_v 3 0 2),
         assemble (.load_m 1 0 2 1), assemble (.gemv 5 1 9 3 2 1)]) = some "IndexError" := by
  refine ⟨by decide, by decide, ?_⟩
  rfl

/-! ### Scheduler vs memory-image builder weight addressing
(src/compiler/compile.py, src/compiler/dram.py) -/

/-- compile.py generate_assembly: the address operands of successive
weight LOAD_M instructions.  The weights base is the hardcoded
dram_addresses weights value 0x10700 and weight_counter advances by
size = rows * cols per weight matrix. -/
def sched_weight_addrs : List (Nat × Nat) → Nat → List Nat
  | [], _ => []
  | (rows, cols) :: rest, weight_counter =>
      (0x10700 + weight_counter) :: sched_weight_addrs rest (weight_counter + rows * cols)

/-- dram.py save_initializers_to_dram: the DRAM addresses at which
successive weight matrices are written.  weight_ptr starts at the
dram_offsets weights value passed by the caller (the Config base
DRAM_ADDR_WEIGHTS = 0x940 in generate_dram_for_input.py and the cocotb
tester) and advances by the written byte count rows * padded_cols. -/
def dram_weight_addrs (tile : Nat) : List (Nat × Nat) → Nat → List Nat
  | [], _ => []
  | (rows, cols) :: rest, weight_ptr =>
      weight_ptr :: dram_weight_addrs tile rest (weight_ptr + rows * padded_cols tile cols)

/-- C3: the scheduler's encoded weight addresses do not match the image
builder's placements on the repository's own MLP weight shapes
(12, 784), (32, 12), (10, 32): the bases differ (hardcoded 0x10700 in
compile.py versus the Config base DRAM_ADDR_WEIGHTS = 0x940 handed to
dram.py), and even from a common base the cursors diverge because the
scheduler advances by rows * cols while the builder advances by
rows * padded_cols. -/
theorem sched_dram_weight_addrs_diverge :
    sched_weight_addrs [(12, 784), (32, 12), (10, 32)] 0 = [67328, 76736, 77120] ∧
      dram_weight_addrs TILE_ELEMS [(12, 784), (32, 12), (10, 32)] DRAM_ADDR_WEIGHTS
        = [2368, 11776, 12288] ∧
      sched_weight_addrs [(12, 784), (32, 12), (10, 32)] 0 ≠
        dram_weight_addrs TILE_ELEMS [(12, 784), (32, 12), (10, 32)] 0x10700 := by
  refine ⟨by decide, by decide, by decide⟩

end TinyML
